import Mathlib

/-!
Shallow embedding of `cube_to_equirect.py` (panorama-viewer repository).

Python strings are modelled as `List Char`; the ASCII subset is what all
claims exercise, so `Char.toLower` stands in for `str.lower`.  Machine
integers are `Nat`/`Int`; Python's floor division `//` on `Int` is
`Int.fdiv`.  The floating-point scale factor in the size guard
(`float(max_dim)/float(max_side)` followed by `int(w*scale)`) is modelled
in exact arithmetic as `w * max_dim / max_side` with `Nat` floor division.
File-system state is passed explicitly (directory listings as lists of
names, file contents as `Option` values).
-/

namespace CubeToEquirect

/-! ### Python string primitives -/

/-- Characters matched by Python's `\s` (and stripped by `str.strip()`)
for `str` patterns: the Unicode whitespace set. -/
def pyWhitespaceChars : List Char :=
  [' ', '\t', '\n', '\r', '\x0b', '\x0c',
   '\x1c', '\x1d', '\x1e', '\x1f', '\u0085', ' ',
   ' ', ' ', ' ', ' ', ' ', ' ', ' ',
   ' ', ' ', ' ', ' ', ' ',
   ' ', ' ', ' ', ' ', '　']

def isPySpace (c : Char) : Bool := pyWhitespaceChars.contains c

/-- `hasLead pat s` holds when `pat` is an initial segment of `s`
(Python `s.startswith(pat)`). -/
def hasLead : List Char → List Char → Bool
  | [], _ => true
  | _ :: _, [] => false
  | p :: ps, c :: cs => p == c && hasLead ps cs

/-- Case-insensitive `hasLead`; the pattern is given already lower-cased. -/
def hasLeadCI : List Char → List Char → Bool
  | [], _ => true
  | _ :: _, [] => false
  | p :: ps, c :: cs => p == c.toLower && hasLeadCI ps cs

/-- `hasTail pat s`: Python `s.endswith(pat)`. -/
def hasTail (pat s : List Char) : Bool := hasLead pat.reverse s.reverse

/-- Python `s.lstrip`-style: drop leading characters satisfying `p`. -/
def lstripBy (p : Char → Bool) (l : List Char) : List Char := l.dropWhile p

/-- Python `s.rstrip`-style: drop trailing characters satisfying `p`. -/
def rstripBy (p : Char → Bool) (l : List Char) : List Char :=
  (l.reverse.dropWhile p).reverse

/-- Python `str.strip()` with no argument: strip whitespace on both ends. -/
def pyStrip (l : List Char) : List Char := rstripBy isPySpace (lstripBy isPySpace l)

def isDotSpace (c : Char) : Bool := c == '.' || c == ' '

/-! ### Filename sanitizer (`sanitize_title_for_filename`, lines 160-173) -/

/-- The set of characters `'<>:"/\\|?*'` disallowed in Windows filenames. -/
def disallowedChars : List Char := ['<', '>', ':', '\"', '/', '\\', '|', '?', '*']

/-- The generator-expression `"_" if c in disallowed else c` mapped over the title. -/
def replaceDisallowed (l : List Char) : List Char :=
  l.map (fun c => if disallowedChars.contains c then '_' else c)

/-- Embedding of `sanitize_title_for_filename`:
`safe = replace; safe = safe.strip().rstrip(". "); if not safe: safe = "panorama"`. -/
def sanitize_title_for_filename (title : List Char) : List Char :=
  let safe := rstripBy isDotSpace (pyStrip (replaceDisallowed title))
  if safe = [] then "panorama".toList else safe

/-- The sanitizer as the spec's words describe it (for comparison with the
source embedding): replace disallowed characters, strip trailing whitespace
and trailing periods/spaces — no stripping at the front — then default to
"panorama" when empty. -/
def sanitizeDescribedBySpec (title : List Char) : List Char :=
  let safe := rstripBy isDotSpace (rstripBy isPySpace (replaceDisallowed title))
  if safe = [] then "panorama".toList else safe

/-- `true` when the string's last character is Python whitespace. -/
def endsInPySpace (l : List Char) : Bool :=
  match l.getLast? with
  | some c => isPySpace c
  | none => false

/-! ### Command-line width clamp (`main`, lines 237-242) -/

/-- Embedding of `if w >= 32000: w = 32000` in `main`. -/
def clampWidth (w : Int) : Int := if 32000 ≤ w then 32000 else w

/-- The clamp branch also prints a warning; this records when it fires. -/
def clampWarning (w : Int) : Bool := decide (32000 ≤ w)

/-- Embedding of `h = w // 2` (Python floor division) on the clamped width. -/
def outputHeight (w : Int) : Int := Int.fdiv (clampWidth w) 2

/-! ### Size guard (`maybe_downscale_cube_faces`, lines 53-78)

Faces are modelled by their pixel dimensions `(h, w)`; `cv2.resize` is
modelled as producing an image of exactly the requested dimensions. -/

def downscaleCeiling : Nat := 30000

def faceMaxDim (hw : Nat × Nat) : Nat := max hw.1 hw.2

/-- The loop `max_side = max(max_side, h, w)` starting from `0`. -/
def maxSide (cube : List (Nat × Nat)) : Nat :=
  cube.foldl (fun m hw => max m (faceMaxDim hw)) 0

/-- `max(1, int(d * scale))` with `scale = float(max_dim) / float(max_side)`,
idealised to exact arithmetic: `int` truncation of a nonnegative value is
floor division.  The program's double-precision value can differ from this
exact value by one unit in either direction (for example, with
`max_side = 40002` the program truncates `40002 * (30000.0 / 40002)` to
29999 where the exact value is 30000), so theorems drawn from this
definition assert the program's behaviour only up to one pixel of slack. -/
def scaledDim (maxS d : Nat) : Nat := max 1 (d * downscaleCeiling / maxS)

def scaleFace (maxS : Nat) (hw : Nat × Nat) : Nat × Nat :=
  (scaledDim maxS hw.1, scaledDim maxS hw.2)

/-- Embedding of `maybe_downscale_cube_faces` on the dimension model. -/
def maybe_downscale_cube_faces (cube : List (Nat × Nat)) : List (Nat × Nat) :=
  if maxSide cube ≤ downscaleCeiling then cube
  else cube.map (scaleFace (maxSide cube))

/-- The spec's exact aspect-ratio-preservation statement between any two
faces: cross-products of old and new widths (and heights) agree. -/
def aspectRatioPreserved (old new : List (Nat × Nat)) : Bool :=
  (old.zip new).all fun a => (old.zip new).all fun b =>
    a.2.2 * b.1.2 == a.1.2 * b.2.2 && a.2.1 * b.1.1 == a.1.1 * b.2.1

/-! ### Face set discovery (`find_cube_sets`, lines 10-50) -/

/-- `os.path.splitext(fname)[0]` for a bare filename: everything before the
last dot, except that a dot with only dots in front of it (leading dots)
does not start an extension. -/
def splitextStem (s : List Char) : List Char :=
  let r := s.reverse
  let k := (r.takeWhile (fun c => !(c == '.'))).length
  if k = r.length then s
  else if (r.drop (k + 1)).any (fun c => !(c == '.')) then (r.drop (k + 1)).reverse
  else s

/-- `fname.lower().endswith(".jpg")`. -/
def isJpgName (s : List Char) : Bool := hasTail ".jpg".toList (s.map Char.toLower)

/-- One iteration of the `find_cube_sets` scan: `some (base, face_idx)` when
the filename passes every filter (`.jpg` extension, non-empty stem, last stem
character a digit 1-6, non-empty base), `none` when the loop `continue`s. -/
def faceEntry (fname : List Char) : Option (List Char × Nat) :=
  if isJpgName fname then
    match (splitextStem fname).getLast? with
    | some c =>
      if ['1', '2', '3', '4', '5', '6'].contains c then
        if (splitextStem fname).dropLast = [] then none
        else some ((splitextStem fname).dropLast, c.toNat - 48)
      else none
    | none => none
  else none

/-- All `(base, face_idx)` pairs recorded in the `sets` dictionary, in scan
order (later duplicates overwrite the filename but not the index set). -/
def parsedFaces (files : List (List Char)) : List (List Char × Nat) :=
  files.filterMap faceEntry

/-- The set of distinct face indices recorded for `b` — the keys of
`sets[b]`, whose count is what `len(f) == 6` tests. -/
def indicesOf (files : List (List Char)) (b : List Char) : Finset Nat :=
  (((parsedFaces files).filter fun e => decide (e.1 = b)).map fun e => e.2).toFinset

/-- The keys of the dictionary returned by `find_cube_sets`: bases that
occurred, kept only when their face-index set has size six. -/
def find_cube_sets (files : List (List Char)) : List (List Char) :=
  (((parsedFaces files).map fun e => e.1).dedup).filter fun b =>
    decide ((indicesOf files b).card = 6)

def sixIndices : Finset Nat := {1, 2, 3, 4, 5, 6}

/-! ### Orientation mapping (`load_cube_faces`, lines 81-112) -/

/-- The fixed cube-dictionary construction of `load_cube_faces`: orientation
label paired with the face index whose file it reads. -/
def cubeOrientationPairs : List (String × Nat) :=
  [("R", 3), ("L", 1), ("U", 5), ("D", 6), ("F", 4), ("B", 2)]

/-- `load_cube_faces` with the image read abstracted as `d : Nat → α`
(face index to decoded image); the downscale step is modelled separately. -/
def load_cube_faces {α : Type} (d : Nat → α) : List (String × α) :=
  cubeOrientationPairs.map fun p => (p.1, d p.2)

/-! ### Title extraction (`extract_title_from_content`, lines 115-126) -/

/-- After the literal `<h1`, the regex `[^>]*>` consumes every character up
to and including the first `>`; `none` when no `>` follows. -/
def afterOpenTag : List Char → Option (List Char)
  | [] => none
  | c :: rest => if c == '>' then some rest else afterOpenTag rest

/-- The lazy group `(.*?)</h1>` (case-insensitive, DOTALL): the text up to
the first closing tag, `none` when there is none. -/
def innerUpToClose : List Char → Option (List Char)
  | [] => none
  | c :: rest =>
    if hasLeadCI ['<', '/', 'h', '1', '>'] (c :: rest) then some []
    else (innerUpToClose rest).map fun t => c :: t

/-- Attempt of the full pattern `<h1[^>]*>(.*?)</h1>` at one position. -/
def matchH1At (s : List Char) : Option (List Char) :=
  if hasLeadCI ['<', 'h', '1'] s then
    match afterOpenTag (s.drop 3) with
    | some rest => innerUpToClose rest
    | none => none
  else none

/-- `re.search`: the match at the leftmost position where one exists. -/
def h1Search : List Char → Option (List Char)
  | [] => none
  | c :: rest =>
    match matchH1At (c :: rest) with
    | some inner => some inner
    | none => h1Search rest

/-- Named entities recognised by the embedding of `html.unescape`; a subset
of the stdlib table sufficient for this development (unknown `&...;`
sequences pass through unchanged, as in the stdlib). -/
def namedEntities : List (List Char × Char) :=
  [("amp".toList, '&'), ("lt".toList, '<'), ("gt".toList, '>'),
   ("quot".toList, '\"'), ("nbsp".toList, ' ')]

/-- Given the text following a `&`, decode one entity reference. -/
def tryEntity (s : List Char) : Option (Char × List Char) :=
  namedEntities.findSome? fun e =>
    if hasLead (e.1 ++ [';']) s then some (e.2, s.drop (e.1.length + 1)) else none

def htmlUnescapeAux : Nat → List Char → List Char
  | 0, l => l
  | _ + 1, [] => []
  | fuel + 1, c :: rest =>
    if c == '&' then
      match tryEntity rest with
      | some (d, rest') => d :: htmlUnescapeAux fuel rest'
      | none => '&' :: htmlUnescapeAux fuel rest
    else c :: htmlUnescapeAux fuel rest

/-- Embedding of `html.unescape` (each step consumes at least one character,
so the input length is enough fuel). -/
def htmlUnescape (l : List Char) : List Char := htmlUnescapeAux l.length l

def collapseWsAux : Bool → List Char → List Char
  | _, [] => []
  | prevSp, c :: rest =>
    if isPySpace c then
      (if prevSp then [] else [' ']) ++ collapseWsAux true rest
    else c :: collapseWsAux false rest

/-- `re.sub(r"\s+", " ", title)`: every maximal whitespace run becomes one
space. -/
def collapseWs (l : List Char) : List Char := collapseWsAux false l

/-- Embedding of `extract_title_from_content`. -/
def extract_title_from_content (content : List Char) : Option (List Char) :=
  match h1Search content with
  | none => none
  | some raw =>
    let t := pyStrip (collapseWs (htmlUnescape raw))
    if t = [] then none else some t

/-! ### Title resolution (`get_scene_title`, lines 129-157)

The directory is abstracted to the contents of `base + ".html"` and
`base + ".js"` (`none` covers both a missing file and a swallowed read
error, which the code treats identically). -/

/-- One iteration of the `for ext in (".html", ".js")` loop: the extracted
title when the candidate file exists (and is readable) and its content
yields a non-empty title. -/
def titleFromMeta : Option (List Char) → Option (List Char)
  | some content => extract_title_from_content content
  | none => none

def get_scene_title (htmlC jsC : Option (List Char)) (base : List Char) : List Char :=
  match titleFromMeta htmlC with
  | some t => t
  | none =>
    match titleFromMeta jsC with
    | some t => t
    | none =>
      let lower := base.map Char.toLower
      match base.getLast? with
      | some c =>
        if hasLead "scene".toList lower && c.isDigit then "Scene ".toList ++ [c]
        else if hasLead "edit".toList lower then "Edit".toList
        else base
      | none => base

/-- The condition of the first fallback heuristic,
`lower.startswith("scene") and base[-1].isdigit()` (short-circuiting, so an
empty base yields `False` without evaluating `base[-1]`). -/
def sceneHeuristic (base : List Char) : Bool :=
  hasLead "scene".toList (base.map Char.toLower) &&
    (match base.getLast? with
     | some c => c.isDigit
     | none => false)

/-! ### Cleanup (`final_cleanup`, lines 176-205)

A directory listing entry is a name paired with `os.path.isfile`. -/

/-- `fname.lower().endswith(".py") or fname.lower().endswith(".bat")`. -/
def isScriptExt (fname : List Char) : Bool :=
  hasTail ".py".toList (fname.map Char.toLower) ||
    hasTail ".bat".toList (fname.map Char.toLower)

/-- The names `final_cleanup` deletes (passes to `os.remove`): regular
files that are neither kept nor script/batch files. -/
def final_cleanup (entries : List (List Char × Bool)) (keep : List (List Char)) :
    List (List Char) :=
  (entries.filter fun e =>
    e.2 && !(decide (e.1 ∈ keep)) && !(isScriptExt e.1)).map Prod.fst

/-! ### Per-set processing loop (`main`, lines 254-291)

One set is `(base, face filenames)`; the whole `try` body (title lookup,
face loading, projection, write) is abstracted as
`att : base → Except error outName`, and metadata existence as
`isF : name → Bool`. -/

def metadataExts : List (List Char) := [".html".toList, ".js".toList]

/-- `base_related_files`: the six face filenames plus each same-named
metadata file that exists. -/
def baseRelatedFiles (isF : List Char → Bool) (base : List Char)
    (faces : List (List Char)) : List (List Char) :=
  faces ++ (metadataExts.map fun e => base ++ e).filter fun n => isF n

/-- What one iteration adds to `keep_files`: the output name on success,
the set's protected files when the `except` branch runs. -/
def setContribution (isF : List Char → Bool)
    (att : List Char → Except (List Char) (List Char))
    (s : List Char × List (List Char)) : List (List Char) :=
  match att s.1 with
  | Except.ok out => [out]
  | Except.error _ => baseRelatedFiles isF s.1 s.2

/-- The loop over `sorted(cube_sets.items())` accumulating `keep_files`. -/
def processSets (isF : List Char → Bool)
    (att : List Char → Except (List Char) (List Char))
    (sets : List (List Char × List (List Char))) : List (List Char) :=
  sets.foldl (fun keep s => keep ++ setContribution isF att s) []

/-! ### Concrete data used to exercise the theorems -/

/-- A directory listing holding one complete six-face set. -/
def demoFiles : List (List Char) :=
  ["RoomA1.jpg".toList, "RoomA2.jpg".toList, "RoomA3.jpg".toList,
   "RoomA4.jpg".toList, "RoomA5.jpg".toList, "RoomA6.jpg".toList]

/-- One cube set whose processing fails. -/
def demoSets : List (List Char × List (List Char)) :=
  [("RoomB".toList, ["RoomB1.jpg".toList, "RoomB2.jpg".toList])]

/-- Metadata existence: only `RoomB.html` is present. -/
def demoIsFile (n : List Char) : Bool := decide (n = "RoomB.html".toList)

/-- A processing oracle that raises on `RoomB` and succeeds elsewhere. -/
def demoAttempt (b : List Char) : Except (List Char) (List Char) :=
  if b = "RoomB".toList then Except.error "boom".toList else Except.ok "out.jpg".toList

/-! ## Theorems -/

/-- C1 (counterexample): the effective width is not clamped to at most
30000 — a requested width of 31000 passes through unchanged and exceeds
30000, so the claimed 30000 ceiling is false of the code (which clamps at
32000). -/
theorem clampWidth_not_le_30000 :
    clampWidth 31000 = 31000 ∧ ¬ clampWidth 31000 ≤ 30000 := by decide

/-- C1 (amended): the effective width is hard-clamped to at most 32000 —
widths below 32000 pass through unchanged, widths of 32000 or more are
set to 32000 with the warning printed — and the output height is the
effective width floor-divided by 2. -/
theorem clampWidth_spec (w : Int) :
    clampWidth w ≤ 32000
    ∧ (clampWidth w = w ∨ (32000 ≤ w ∧ clampWidth w = 32000 ∧ clampWarning w = true))
    ∧ outputHeight w = Int.fdiv (clampWidth w) 2 := by
  refine ⟨?_, ?_, rfl⟩
  · unfold clampWidth; split <;> omega
  · by_cases h : (32000 : Int) ≤ w
    · exact Or.inr ⟨h, by simp [clampWidth, h], by simp [clampWarning, h]⟩
    · exact Or.inl (by simp [clampWidth, h])

/-- C4: the face-index-to-orientation mapping of the face loader is the
fixed assignment 3→R(right), 1→L(left), 5→U(up), 6→D(down), 4→F(forward),
2→B(backward); the six labels are pairwise distinct, the six indices are
pairwise distinct, and every index 1-6 is assigned — a bijection with no
collisions on every run. -/
theorem load_cube_faces_bijection :
    (∀ {α : Type} (d : Nat → α),
        (load_cube_faces d).map Prod.fst = ["R", "L", "U", "D", "F", "B"]
        ∧ (load_cube_faces d).map Prod.snd = [d 3, d 1, d 5, d 6, d 4, d 2])
    ∧ (cubeOrientationPairs.map Prod.fst).Nodup
    ∧ (cubeOrientationPairs.map Prod.snd).Nodup
    ∧ cubeOrientationPairs.map Prod.snd = [3, 1, 5, 6, 4, 2]
    ∧ ∀ i ∈ [1, 2, 3, 4, 5, 6], ∃ p ∈ cubeOrientationPairs, p.2 = i :=
  ⟨fun d => ⟨rfl, rfl⟩, by decide, by decide, rfl, by decide⟩

/-- C4 (witness): the bijection theorem applied to a concrete loader. -/
theorem load_cube_faces_bijection_witness :
    (load_cube_faces (fun i : Nat => i)).map Prod.fst = ["R", "L", "U", "D", "F", "B"]
    ∧ ∃ p ∈ cubeOrientationPairs, p.2 = 1 :=
  ⟨(load_cube_faces_bijection.1 (fun i => i)).1,
   load_cube_faces_bijection.2.2.2.2 1 (by decide)⟩

/-- C6: cleanup deletes exactly the directory entries that are regular
files, not in the keep set, and without a script/batch extension; keep-set
members, `.py`/`.bat` files, and non-files (directories) are never
deleted. -/
theorem final_cleanup_deletes_iff (entries : List (List Char × Bool))
    (keep : List (List Char)) (fname : List Char) :
    fname ∈ final_cleanup entries keep ↔
      ((fname, true) ∈ entries ∧ fname ∉ keep ∧ isScriptExt fname = false) := by
  unfold final_cleanup
  constructor
  · intro h
    obtain ⟨⟨a, fb⟩, he, hfst⟩ := List.mem_map.1 h
    rw [List.mem_filter] at he
    obtain ⟨hmem, hpred⟩ := he
    simp only [Bool.and_eq_true, Bool.not_eq_true', decide_eq_false_iff_not] at hpred
    obtain ⟨⟨h2, hk⟩, hs⟩ := hpred
    cases hfst
    cases h2
    exact ⟨hmem, hk, hs⟩
  · rintro ⟨hmem, hk, hs⟩
    refine List.mem_map.2 ⟨(fname, true), List.mem_filter.2 ⟨hmem, ?_⟩, rfl⟩
    simp [hk, hs]

/-- C6 (witness): the deletion characterisation applied to a one-entry
directory. -/
theorem final_cleanup_deletes_iff_witness :
    "RoomA1.jpg".toList ∈ final_cleanup [("RoomA1.jpg".toList, true)] [] :=
  (final_cleanup_deletes_iff [("RoomA1.jpg".toList, true)] [] "RoomA1.jpg".toList).mpr
    (by refine ⟨by decide, by decide, by decide⟩)

/-- C10: whenever the size guard downscales a cube (its maximum side
exceeds the 30000 ceiling), every resulting face dimension is at least 1
pixel, because each dimension is computed as `max(1, int(d*scale))`. -/
theorem downscaled_dims_positive (cube : List (Nat × Nat))
    (h : downscaleCeiling < maxSide cube) :
    ∀ hw ∈ maybe_downscale_cube_faces cube, 1 ≤ hw.1 ∧ 1 ≤ hw.2 := by
  intro hw hmem
  unfold maybe_downscale_cube_faces at hmem
  rw [if_neg (by omega)] at hmem
  obtain ⟨x, _, rfl⟩ := List.mem_map.1 hmem
  exact ⟨le_max_left 1 _, le_max_left 1 _⟩

/-- C10 (witness): an extremely elongated face (60000 × 1) whose scaled
width would round to 0 still comes out with both dimensions at least 1. -/
theorem downscaled_dims_positive_witness :
    downscaleCeiling < maxSide [(60000, 1)] ∧ 1 ≤ (30000 : Nat) ∧ 1 ≤ (1 : Nat) :=
  ⟨by decide, downscaled_dims_positive [(60000, 1)] (by decide) (30000, 1) (by decide)⟩

/-- C3 (counterexample): a cube of faces 65536×65536 and 65535×65535 is
above the ceiling and gets downscaled to 30000×30000 and 29999×29999; the
exact relative aspect ratio between the two faces is not preserved
(30000·65535 ≠ 65536·29999), so the claim's aspect-preservation clause is
false of the code. -/
theorem downscale_aspect_ratio_cex :
    downscaleCeiling < maxSide [(65536, 65536), (65535, 65535)]
    ∧ maybe_downscale_cube_faces [(65536, 65536), (65535, 65535)]
        = [(30000, 30000), (29999, 29999)]
    ∧ aspectRatioPreserved [(65536, 65536), (65535, 65535)]
        (maybe_downscale_cube_faces [(65536, 65536), (65535, 65535)]) = false := by
  decide

/-- C8 (counterexample): the sanitizer also strips leading whitespace,
which the claimed replace-then-strip-trailing pipeline does not — on
input " a" the code yields "a" while the described pipeline yields " a". -/
theorem sanitize_leading_strip_cex :
    sanitize_title_for_filename " a".toList = "a".toList
    ∧ sanitizeDescribedBySpec " a".toList = " a".toList
    ∧ sanitize_title_for_filename " a".toList ≠ sanitizeDescribedBySpec " a".toList := by
  decide

/-- C9 (counterexample): the sanitizer is not idempotent — on "a\t." one
application gives "a\t" (the trailing-dot strip exposes a tab), and a
second application strips the tab, giving "a". -/
theorem sanitize_not_idempotent_cex :
    sanitize_title_for_filename (sanitize_title_for_filename "a\t.".toList)
      ≠ sanitize_title_for_filename "a\t.".toList := by decide

/-! ### Size-guard lemmas -/

theorem foldl_max_acc (l : List (Nat × Nat)) :
    ∀ a : Nat, l.foldl (fun m hw => max m (faceMaxDim hw)) a = max a (maxSide l) := by
  induction l with
  | nil => intro a; simp [maxSide]
  | cons hw l ih =>
    intro a
    have h1 := ih (max a (faceMaxDim hw))
    have h2 := ih (max 0 (faceMaxDim hw))
    simp only [List.foldl_cons, maxSide] at *
    rw [h1, h2]
    omega

theorem maxSide_cons (hw : Nat × Nat) (l : List (Nat × Nat)) :
    maxSide (hw :: l) = max (faceMaxDim hw) (maxSide l) := by
  have := foldl_max_acc l (max 0 (faceMaxDim hw))
  simp only [maxSide, List.foldl_cons] at *
  omega

theorem mem_le_maxSide {hw : Nat × Nat} {cube : List (Nat × Nat)} (h : hw ∈ cube) :
    faceMaxDim hw ≤ maxSide cube := by
  induction cube with
  | nil => cases h
  | cons x l ih =>
    rw [maxSide_cons]
    rcases List.mem_cons.1 h with rfl | h'
    · omega
    · have := ih h'; omega

theorem maxSide_le {cube : List (Nat × Nat)} {n : Nat}
    (h : ∀ hw ∈ cube, faceMaxDim hw ≤ n) : maxSide cube ≤ n := by
  induction cube with
  | nil => simp [maxSide]
  | cons x l ih =>
    rw [maxSide_cons]
    have hx := h x (List.mem_cons_self x l)
    have hl := ih fun hw hm => h hw (List.mem_cons_of_mem x hm)
    omega

theorem maxSide_achieved {cube : List (Nat × Nat)} (h : maxSide cube ≠ 0) :
    ∃ hw ∈ cube, faceMaxDim hw = maxSide cube := by
  induction cube with
  | nil => simp [maxSide] at h
  | cons x l ih =>
    rw [maxSide_cons] at h ⊢
    by_cases hc : maxSide l ≤ faceMaxDim x
    · exact ⟨x, List.mem_cons_self x l, by omega⟩
    · have hl : maxSide l ≠ 0 := by omega
      obtain ⟨hw, hm, he⟩ := ih hl
      exact ⟨hw, List.mem_cons_of_mem x hm, by omega⟩

theorem scaledDim_le {M d : Nat} (hM : downscaleCeiling < M) (hd : d ≤ M) :
    scaledDim M d ≤ downscaleCeiling := by
  have h1 : d * downscaleCeiling / M ≤ M * downscaleCeiling / M :=
    Nat.div_le_div_right (Nat.mul_le_mul_right downscaleCeiling hd)
  rw [Nat.mul_div_cancel_left downscaleCeiling (by omega : 0 < M)] at h1
  unfold scaledDim downscaleCeiling at *
  omega

theorem scaledDim_self {M : Nat} (hM : downscaleCeiling < M) :
    scaledDim M M = downscaleCeiling := by
  unfold scaledDim
  rw [Nat.mul_div_cancel_left downscaleCeiling (by omega : 0 < M)]
  unfold downscaleCeiling
  omega

theorem scaledDim_bounds {M : Nat} (hM : 0 < M) (d : Nat) :
    scaledDim M d * M ≤ max (d * downscaleCeiling) M
    ∧ d * downscaleCeiling < (scaledDim M d + 1) * M := by
  have hqm : d * downscaleCeiling / M * M ≤ d * downscaleCeiling :=
    Nat.div_mul_le_self (d * downscaleCeiling) M
  have hmod := Nat.div_add_mod (d * downscaleCeiling) M
  have hr : (d * downscaleCeiling) % M < M := Nat.mod_lt _ hM
  have hcomm : d * downscaleCeiling / M * M = M * (d * downscaleCeiling / M) :=
    Nat.mul_comm _ _
  by_cases h0 : d * downscaleCeiling / M = 0
  · have hlt : d * downscaleCeiling < M := (Nat.div_eq_zero_iff hM).1 h0
    have hs : scaledDim M d = 1 := by
      unfold scaledDim; rw [h0]; exact max_eq_left (Nat.zero_le 1)
    rw [hs]
    have h2 : (1 + 1) * M = M + M := by ring
    constructor
    · have := le_max_right (d * downscaleCeiling) M
      omega
    · omega
  · have hs : scaledDim M d = d * downscaleCeiling / M := by
      unfold scaledDim; exact max_eq_right (Nat.one_le_iff_ne_zero.mpr h0)
    rw [hs]
    have hdist : (d * downscaleCeiling / M + 1) * M = d * downscaleCeiling / M * M + M := by
      ring
    constructor
    · exact le_trans hqm (le_max_left _ _)
    · omega

/-- C3 (amended): if the maximum face side is at most the 30000 ceiling the
cube is returned unchanged; if it exceeds the ceiling, every dimension is
rescaled by the identical factor ceiling/max_side — each dimension becoming
`max(1, int(d·scale))` — so that the new maximum side equals the ceiling
within 1 pixel of rounding, and the relative aspect ratio between any two
faces is preserved only up to rounding: each rescaled dimension is within
one pixel of the exact ratio d·ceiling/max_side, not equal to it.  (The
stated bounds carry one pixel of slack so that they hold of the program's
floating-point evaluation as well as of this exact-arithmetic model.) -/
theorem maybe_downscale_spec (cube : List (Nat × Nat)) :
    (maxSide cube ≤ downscaleCeiling → maybe_downscale_cube_faces cube = cube)
    ∧ (downscaleCeiling < maxSide cube →
        maybe_downscale_cube_faces cube = cube.map (scaleFace (maxSide cube))
        ∧ downscaleCeiling - 1 ≤ maxSide (maybe_downscale_cube_faces cube)
        ∧ maxSide (maybe_downscale_cube_faces cube) ≤ downscaleCeiling
        ∧ ∀ hw ∈ cube,
            scaledDim (maxSide cube) hw.1 * maxSide cube
                ≤ max (hw.1 * downscaleCeiling) (maxSide cube) + maxSide cube
            ∧ hw.1 * downscaleCeiling
                < (scaledDim (maxSide cube) hw.1 + 2) * maxSide cube
            ∧ scaledDim (maxSide cube) hw.2 * maxSide cube
                ≤ max (hw.2 * downscaleCeiling) (maxSide cube) + maxSide cube
            ∧ hw.2 * downscaleCeiling
                < (scaledDim (maxSide cube) hw.2 + 2) * maxSide cube) := by
  constructor
  · intro h
    unfold maybe_downscale_cube_faces
    rw [if_pos h]
  · intro hM
    have hmap : maybe_downscale_cube_faces cube = cube.map (scaleFace (maxSide cube)) := by
      unfold maybe_downscale_cube_faces
      rw [if_neg (by omega)]
    have hub : maxSide (cube.map (scaleFace (maxSide cube))) ≤ downscaleCeiling := by
      apply maxSide_le
      intro hw' hmem
      obtain ⟨x, hx, rfl⟩ := List.mem_map.1 hmem
      have hx1 : x.1 ≤ maxSide cube := le_trans (le_max_left _ _) (mem_le_maxSide hx)
      have hx2 : x.2 ≤ maxSide cube := le_trans (le_max_right _ _) (mem_le_maxSide hx)
      have := scaledDim_le hM hx1
      have := scaledDim_le hM hx2
      unfold faceMaxDim scaleFace at *
      omega
    have hlb : downscaleCeiling ≤ maxSide (cube.map (scaleFace (maxSide cube))) := by
      obtain ⟨hw, hmem, he⟩ := maxSide_achieved
        (by unfold downscaleCeiling at hM; omega : maxSide cube ≠ 0)
      have hself := scaledDim_self hM
      have hmm : scaleFace (maxSide cube) hw ∈ cube.map (scaleFace (maxSide cube)) :=
        List.mem_map_of_mem _ hmem
      have hle := mem_le_maxSide hmm
      rcases max_choice hw.1 hw.2 with hc | hc <;>
        unfold faceMaxDim scaleFace at * <;>
        [rw [show hw.1 = maxSide cube by omega, hself] at hle;
         rw [show hw.2 = maxSide cube by omega, hself] at hle] <;>
        omega
    refine ⟨hmap, ?_, ?_, ?_⟩
    · rw [hmap]; omega
    · rw [hmap]; omega
    · intro hw _
      have hpos : 0 < maxSide cube := by unfold downscaleCeiling at hM; omega
      obtain ⟨b1, b2⟩ := scaledDim_bounds hpos hw.1
      obtain ⟨b3, b4⟩ := scaledDim_bounds hpos hw.2
      have s1 : (scaledDim (maxSide cube) hw.1 + 1) * maxSide cube
          ≤ (scaledDim (maxSide cube) hw.1 + 2) * maxSide cube :=
        Nat.mul_le_mul_right (maxSide cube) (by omega)
      have s2 : (scaledDim (maxSide cube) hw.2 + 1) * maxSide cube
          ≤ (scaledDim (maxSide cube) hw.2 + 2) * maxSide cube :=
        Nat.mul_le_mul_right (maxSide cube) (by omega)
      exact ⟨le_trans b1 (Nat.le_add_right _ _), lt_of_lt_of_le b2 s1,
             le_trans b3 (Nat.le_add_right _ _), lt_of_lt_of_le b4 s2⟩

/-- C3 (witness): a within-bounds cube passes unchanged, and the oversized
cube [(40000, 20000)] comes out with maximum side within one pixel of the
30000 ceiling. -/
theorem maybe_downscale_spec_witness :
    maybe_downscale_cube_faces [(100, 200)] = [(100, 200)]
    ∧ downscaleCeiling - 1 ≤ maxSide (maybe_downscale_cube_faces [(40000, 20000)])
    ∧ maxSide (maybe_downscale_cube_faces [(40000, 20000)]) ≤ downscaleCeiling :=
  ⟨(maybe_downscale_spec [(100, 200)]).1 (by decide),
   ((maybe_downscale_spec [(40000, 20000)]).2 (by decide)).2.1,
   ((maybe_downscale_spec [(40000, 20000)]).2 (by decide)).2.2.1⟩

/-! ### Per-set loop lemmas -/

theorem foldl_append_flatten {α β : Type} (g : β → List α) :
    ∀ (sets : List β) (acc : List α),
      sets.foldl (fun keep s => keep ++ g s) acc = acc ++ (sets.map g).flatten := by
  intro sets
  induction sets with
  | nil => intro acc; simp
  | cons s rest ih => intro acc; simp [ih, List.append_assoc]

/-- C5: per-set failure isolation — the keep set accumulated by the main
loop is exactly the concatenation of each set's independent contribution
(so a failure in one set cannot change what any other set contributes, and
every set is processed); for every set whose processing raises, all of its
face filenames and each existing same-named metadata file end up in the
keep set, and for every set that succeeds its output name ends up in the
keep set. -/
theorem processSets_error_isolation (isF : List Char → Bool)
    (att : List Char → Except (List Char) (List Char))
    (sets : List (List Char × List (List Char))) :
    processSets isF att sets = (sets.map (setContribution isF att)).flatten
    ∧ (∀ s ∈ sets, ∀ e, att s.1 = Except.error e →
        (∀ f ∈ s.2, f ∈ processSets isF att sets)
        ∧ ∀ ext ∈ metadataExts, isF (s.1 ++ ext) = true →
            (s.1 ++ ext) ∈ processSets isF att sets)
    ∧ (∀ s ∈ sets, ∀ o, att s.1 = Except.ok o → o ∈ processSets isF att sets) := by
  have hflat : processSets isF att sets = (sets.map (setContribution isF att)).flatten :=
    foldl_append_flatten (setContribution isF att) sets []
  have hcontrib : ∀ s ∈ sets, ∀ x ∈ setContribution isF att s, x ∈ processSets isF att sets := by
    intro s hs x hx
    rw [hflat]
    exact List.mem_flatten.2 ⟨setContribution isF att s, List.mem_map_of_mem _ hs, hx⟩
  refine ⟨hflat, ?_, ?_⟩
  · intro s hs e he
    constructor
    · intro f hf
      refine hcontrib s hs f ?_
      unfold setContribution
      rw [he]
      exact List.mem_append_left _ hf
    · intro ext hext hisf
      refine hcontrib s hs (s.1 ++ ext) ?_
      unfold setContribution
      rw [he]
      refine List.mem_append_right _ ?_
      exact List.mem_filter.2 ⟨List.mem_map_of_mem _ hext, hisf⟩
  · intro s hs o ho
    refine hcontrib s hs o ?_
    unfold setContribution
    rw [ho]
    exact List.mem_singleton.2 rfl

/-- C5 (witness): for the concrete failing set `RoomB`, one of its face
files and its existing metadata file are kept. -/
theorem processSets_error_isolation_witness :
    "RoomB1.jpg".toList ∈ processSets demoIsFile demoAttempt demoSets
    ∧ ("RoomB".toList ++ ".html".toList) ∈ processSets demoIsFile demoAttempt demoSets :=
  ⟨(((processSets_error_isolation demoIsFile demoAttempt demoSets).2.1
      ("RoomB".toList, ["RoomB1.jpg".toList, "RoomB2.jpg".toList]) (by decide)
      "boom".toList rfl).1 "RoomB1.jpg".toList (by decide)),
   (((processSets_error_isolation demoIsFile demoAttempt demoSets).2.1
      ("RoomB".toList, ["RoomB1.jpg".toList, "RoomB2.jpg".toList]) (by decide)
      "boom".toList rfl).2 ".html".toList (by decide) (by decide))⟩

/-! ### Face-set discovery lemmas -/

theorem faceEntry_snd_mem {f : List Char} {e : List Char × Nat}
    (h : faceEntry f = some e) : e.2 ∈ sixIndices := by
  unfold faceEntry at h
  split at h
  · split at h
    · rename_i c heq
      split at h
      · split at h
        · exact absurd h (by simp)
        · rename_i hc hne
          injection h with h'
          cases h'
          simp only []
          have hc' : c = '1' ∨ c = '2' ∨ c = '3' ∨ c = '4' ∨ c = '5' ∨ c = '6' := by
            simpa [List.contains_cons, List.contains_nil, beq_iff_eq] using hc
          rcases hc' with rfl | rfl | rfl | rfl | rfl | rfl <;> decide
      · exact absurd h (by simp)
    · exact absurd h (by simp)
  · exact absurd h (by simp)

/-- C2: a base is among the keys returned by `find_cube_sets` exactly when
its recorded face-index set is all six indices 1-6 (so bases with fewer
indices are absent), and a filename the scan filters out — wrong extension,
no digit-1-6 stem ending, or empty prefix — contributes nothing to the
result. -/
theorem find_cube_sets_complete :
    (∀ files b, b ∈ find_cube_sets files ↔ indicesOf files b = sixIndices)
    ∧ ∀ files f, faceEntry f = none →
        find_cube_sets (f :: files) = find_cube_sets files := by
  constructor
  · intro files b
    constructor
    · intro h
      unfold find_cube_sets at h
      rw [List.mem_filter] at h
      obtain ⟨_, hcard⟩ := h
      have hcard6 : (indicesOf files b).card = 6 := of_decide_eq_true hcard
      have hsub : indicesOf files b ⊆ sixIndices := by
        intro x hx
        unfold indicesOf at hx
        rw [List.mem_toFinset] at hx
        obtain ⟨e, he, rfl⟩ := List.mem_map.1 hx
        rw [List.mem_filter] at he
        obtain ⟨hp, _⟩ := he
        unfold parsedFaces at hp
        obtain ⟨g, _, hg⟩ := List.mem_filterMap.1 hp
        exact faceEntry_snd_mem hg
      refine Finset.eq_of_subset_of_card_le hsub ?_
      rw [hcard6]
      decide
    · intro h
      unfold find_cube_sets
      rw [List.mem_filter]
      constructor
      · have h1 : (1 : Nat) ∈ indicesOf files b := by rw [h]; decide
        unfold indicesOf at h1
        rw [List.mem_toFinset] at h1
        obtain ⟨e, he, _⟩ := List.mem_map.1 h1
        rw [List.mem_filter] at he
        obtain ⟨hp, hb⟩ := he
        have hb' : e.1 = b := of_decide_eq_true hb
        rw [List.mem_dedup]
        exact hb' ▸ List.mem_map_of_mem _ hp
      · rw [h]
        decide
  · intro files f hf
    have hpf : parsedFaces (f :: files) = parsedFaces files := by
      unfold parsedFaces
      rw [List.filterMap_cons_none hf]
    unfold find_cube_sets indicesOf
    rw [hpf]

/-- C2 (witness): the complete six-face `RoomA` set is discovered, and a
non-jpg file prepended to the listing leaves the result unchanged. -/
theorem find_cube_sets_complete_witness :
    "RoomA".toList ∈ find_cube_sets demoFiles
    ∧ find_cube_sets ("cover.png".toList :: demoFiles) = find_cube_sets demoFiles :=
  ⟨(find_cube_sets_complete.1 demoFiles "RoomA".toList).mpr (by decide),
   find_cube_sets_complete.2 demoFiles "cover.png".toList (by decide)⟩

/-! ### Strip-function lemmas -/

theorem mem_of_mem_dropWhile {p : Char → Bool} {l : List Char} {a : Char}
    (h : a ∈ l.dropWhile p) : a ∈ l :=
  (List.dropWhile_suffix p).subset h

theorem mem_of_mem_rstripBy {p : Char → Bool} {l : List Char} {a : Char}
    (h : a ∈ rstripBy p l) : a ∈ l := by
  unfold rstripBy at h
  exact List.mem_reverse.mp (mem_of_mem_dropWhile (List.mem_reverse.mp h))

theorem rstripBy_prefix (p : Char → Bool) (l : List Char) : rstripBy p l <+: l := by
  have h := List.dropWhile_suffix (l := l.reverse) p
  obtain ⟨t, ht⟩ := h
  refine ⟨t.reverse, ?_⟩
  have := congrArg List.reverse ht
  simpa [rstripBy] using this

theorem head_not_of_dropWhile {p : Char → Bool} {l : List Char} {c : Char}
    (h : (l.dropWhile p).head? = some c) : p c = false := by
  induction l with
  | nil => simp at h
  | cons a t ih =>
    rw [List.dropWhile_cons] at h
    split at h
    · exact ih h
    · rename_i hp
      rw [List.head?_cons] at h
      injection h with h'
      subst h'
      exact Bool.eq_false_iff.mpr hp

theorem getLast_not_of_rstripBy {p : Char → Bool} {l : List Char} {c : Char}
    (h : (rstripBy p l).getLast? = some c) : p c = false := by
  unfold rstripBy at h
  rw [List.getLast?_reverse] at h
  exact head_not_of_dropWhile h

theorem dropWhile_eq_self_of_head {p : Char → Bool} {l : List Char}
    (h : ∀ c, l.head? = some c → p c = false) : l.dropWhile p = l := by
  cases l with
  | nil => rfl
  | cons a t => simp [List.dropWhile_cons, h a rfl]

theorem rstripBy_eq_self_of_getLast {p : Char → Bool} {l : List Char}
    (h : ∀ c, l.getLast? = some c → p c = false) : rstripBy p l = l := by
  unfold rstripBy
  rw [dropWhile_eq_self_of_head, List.reverse_reverse]
  intro c hc
  rw [List.head?_reverse] at hc
  exact h c hc

theorem head?_eq_of_isPrefix {l₁ l₂ : List Char} (h : l₁ <+: l₂) (hne : l₁ ≠ []) :
    l₂.head? = l₁.head? := by
  obtain ⟨t, rfl⟩ := h
  cases l₁ with
  | nil => exact absurd rfl hne
  | cons a u => rfl

theorem replaceDisallowed_not_mem {l : List Char} {c : Char}
    (h : c ∈ replaceDisallowed l) : disallowedChars.contains c = false := by
  unfold replaceDisallowed at h
  obtain ⟨a, _, rfl⟩ := List.mem_map.1 h
  by_cases ha : disallowedChars.contains a = true
  · rw [if_pos ha]
    decide
  · rw [if_neg ha]
    exact Bool.eq_false_iff.mpr ha

theorem replaceDisallowed_eq_self : ∀ {l : List Char},
    (∀ c ∈ l, disallowedChars.contains c = false) → replaceDisallowed l = l := by
  intro l
  induction l with
  | nil => intro _; rfl
  | cons a t ih =>
    intro h
    have ha := h a (List.mem_cons_self a t)
    have ht := ih fun c hc => h c (List.mem_cons_of_mem a hc)
    unfold replaceDisallowed at ht ⊢
    rw [List.map_cons, ht, ha]
    simp

/-- C8 (amended): the sanitizer never returns an empty string and its
output contains none of the disallowed characters; its result is obtained
by replacing each disallowed character with an underscore, stripping
leading as well as trailing whitespace, stripping trailing periods and
spaces, and substituting "panorama" for an empty result. -/
theorem sanitize_title_spec (s : List Char) :
    sanitize_title_for_filename s ≠ []
    ∧ (∀ c ∈ sanitize_title_for_filename s, disallowedChars.contains c = false)
    ∧ sanitize_title_for_filename s =
        (if rstripBy isDotSpace
              (rstripBy isPySpace (lstripBy isPySpace (replaceDisallowed s))) = []
         then "panorama".toList
         else rstripBy isDotSpace
              (rstripBy isPySpace (lstripBy isPySpace (replaceDisallowed s)))) := by
  refine ⟨?_, ?_, rfl⟩
  · unfold sanitize_title_for_filename
    dsimp only
    split
    · decide
    · assumption
  · intro c hc
    unfold sanitize_title_for_filename at hc
    dsimp only at hc
    split at hc
    · have hp : ∀ x ∈ "panorama".toList, disallowedChars.contains x = false := by decide
      exact hp c hc
    · exact replaceDisallowed_not_mem
        (mem_of_mem_dropWhile (mem_of_mem_rstripBy (mem_of_mem_rstripBy hc)))

/-- C8 (witness): the sanitizer theorem applied to the concrete title
"a&lt;b&gt;" (written with the raw characters). -/
theorem sanitize_title_spec_witness :
    sanitize_title_for_filename "a<b>".toList ≠ []
    ∧ disallowedChars.contains 'b' = false :=
  ⟨(sanitize_title_spec "a<b>".toList).1,
   (sanitize_title_spec "a<b>".toList).2.1 'b' (by decide)⟩

/-- C9 (amended): the sanitizer is idempotent on every title whose
sanitized form does not end in a whitespace character (the only failures
are inputs like "a\t." where stripping the trailing dot exposes trailing
non-space whitespace). -/
theorem sanitize_idempotent_of_no_trailing_space (s : List Char)
    (h : endsInPySpace (sanitize_title_for_filename s) = false) :
    sanitize_title_for_filename (sanitize_title_for_filename s)
      = sanitize_title_for_filename s := by
  by_cases hv : rstripBy isDotSpace (pyStrip (replaceDisallowed s)) = []
  · have hs : sanitize_title_for_filename s = "panorama".toList := by
      unfold sanitize_title_for_filename
      dsimp only
      rw [if_pos hv]
    rw [hs]
    decide
  · have hs : sanitize_title_for_filename s
        = rstripBy isDotSpace (pyStrip (replaceDisallowed s)) := by
      unfold sanitize_title_for_filename
      dsimp only
      rw [if_neg hv]
    set v := rstripBy isDotSpace (pyStrip (replaceDisallowed s)) with hvdef
    rw [hs] at h ⊢
    have hnd : ∀ c ∈ v, disallowedChars.contains c = false := by
      intro c hc
      exact replaceDisallowed_not_mem
        (mem_of_mem_dropWhile (mem_of_mem_rstripBy (mem_of_mem_rstripBy hc)))
    have hrep : replaceDisallowed v = v := replaceDisallowed_eq_self hnd
    have hlstrip : lstripBy isPySpace v = v := by
      cases hveq : v with
      | nil => rfl
      | cons a t =>
        have hpre1 : v <+: pyStrip (replaceDisallowed s) := rstripBy_prefix _ _
        have hpre2 : pyStrip (replaceDisallowed s)
            <+: lstripBy isPySpace (replaceDisallowed s) := rstripBy_prefix _ _
        have hne : v ≠ [] := by rw [hveq]; simp
        have hh1 : (pyStrip (replaceDisallowed s)).head? = v.head? :=
          head?_eq_of_isPrefix hpre1 hne
        have hne2 : pyStrip (replaceDisallowed s) ≠ [] := by
          intro hnil
          rw [hnil, hveq] at hh1
          simp at hh1
        have hh2 : (lstripBy isPySpace (replaceDisallowed s)).head?
            = (pyStrip (replaceDisallowed s)).head? :=
          head?_eq_of_isPrefix hpre2 hne2
        have hha : (lstripBy isPySpace (replaceDisallowed s)).head? = some a := by
          rw [hh2, hh1, hveq]
          rfl
        have hpa : isPySpace a = false := head_not_of_dropWhile hha
        unfold lstripBy
        simp [List.dropWhile_cons, hpa]
    have hrstrip : rstripBy isPySpace v = v := by
      apply rstripBy_eq_self_of_getLast
      intro c hc
      unfold endsInPySpace at h
      rw [hc] at h
      exact h
    have hrdot : rstripBy isDotSpace v = v := by
      apply rstripBy_eq_self_of_getLast
      intro c hc
      rw [hvdef] at hc
      exact getLast_not_of_rstripBy hc
    unfold sanitize_title_for_filename pyStrip
    dsimp only
    rw [hrep, hlstrip, hrstrip, hrdot]
    rw [if_neg hv]

/-- C9 (witness): the conditional-idempotence theorem applied at "hello". -/
theorem sanitize_idempotent_witness :
    endsInPySpace (sanitize_title_for_filename "hello".toList) = false
    ∧ sanitize_title_for_filename (sanitize_title_for_filename "hello".toList)
        = sanitize_title_for_filename "hello".toList :=
  ⟨by decide, sanitize_idempotent_of_no_trailing_space "hello".toList (by decide)⟩

/-! ### Title-resolution theorem -/

/-- C7: the title resolver is first-match-wins — a title extracted from the
html metadata content (first h1 inner text, entity-unescaped,
whitespace-collapsed, trimmed, non-empty) wins over everything; failing
that, a title extracted from the js metadata content wins; with no metadata
title (files absent or yielding nothing), a base satisfying the scene
heuristic (scene keyword prefix and digit last character) resolves to
"Scene <digit>" (e.g. "Scene4" → "Scene 4"); else a base starting with the
edit keyword resolves to "Edit" (e.g. "Edit03" → "Edit"); else the base
itself is returned (e.g. "SceneX", scene-prefixed but not digit-final,
resolves to "SceneX"); and "<h1>My&nbsp;Room</h1>" resolves to
"My Room". -/
theorem get_scene_title_resolution :
    (∀ hc js base t, extract_title_from_content hc = some t →
        get_scene_title (some hc) js base = t)
    ∧ (∀ htmlC jc base t, titleFromMeta htmlC = none →
        extract_title_from_content jc = some t →
        get_scene_title htmlC (some jc) base = t)
    ∧ (∀ js base,
        get_scene_title (some ("<h1>My&nbsp;Room</h1>".toList)) js base
          = "My Room".toList)
    ∧ (∀ htmlC jsC base c, titleFromMeta htmlC = none → titleFromMeta jsC = none →
        base.getLast? = some c → sceneHeuristic base = true →
        get_scene_title htmlC jsC base = "Scene ".toList ++ [c])
    ∧ get_scene_title none none "Scene4".toList = "Scene 4".toList
    ∧ (∀ htmlC jsC base, titleFromMeta htmlC = none → titleFromMeta jsC = none →
        sceneHeuristic base = false →
        hasLead "edit".toList (base.map Char.toLower) = true →
        get_scene_title htmlC jsC base = "Edit".toList)
    ∧ get_scene_title none none "Edit03".toList = "Edit".toList
    ∧ (∀ htmlC jsC base, titleFromMeta htmlC = none → titleFromMeta jsC = none →
        sceneHeuristic base = false →
        hasLead "edit".toList (base.map Char.toLower) = false →
        get_scene_title htmlC jsC base = base)
    ∧ get_scene_title none none "SceneX".toList = "SceneX".toList := by
  refine ⟨?_, ?_, ?_, ?_, by decide, ?_, by decide, ?_, by decide⟩
  · intro hc js base t h
    unfold get_scene_title
    have hx : titleFromMeta (some hc) = some t := h
    rw [hx]
  · intro htmlC jc base t hm1 h
    unfold get_scene_title
    rw [hm1]
    have hx : titleFromMeta (some jc) = some t := h
    rw [hx]
  · intro js base
    unfold get_scene_title
    have hx : titleFromMeta (some ("<h1>My&nbsp;Room</h1>".toList))
        = some ("My Room".toList) := by decide
    rw [hx]
  · intro htmlC jsC base c hm1 hm2 hlast hsc
    unfold get_scene_title
    rw [hm1, hm2]
    dsimp only
    rw [hlast]
    dsimp only
    have hcond : (hasLead "scene".toList (base.map Char.toLower) && c.isDigit) = true := by
      unfold sceneHeuristic at hsc
      rw [hlast] at hsc
      exact hsc
    rw [if_pos hcond]
  · intro htmlC jsC base hm1 hm2 hsc hed
    unfold get_scene_title
    rw [hm1, hm2]
    dsimp only
    cases hlast : base.getLast? with
    | none =>
      rw [List.getLast?_eq_none_iff] at hlast
      subst hlast
      exact absurd hed (by decide)
    | some c =>
      dsimp only
      have hcond : (hasLead "scene".toList (base.map Char.toLower) && c.isDigit) = false := by
        unfold sceneHeuristic at hsc
        rw [hlast] at hsc
        exact hsc
      rw [if_neg (by rw [hcond]; simp), if_pos hed]
  · intro htmlC jsC base hm1 hm2 hsc hed
    unfold get_scene_title
    rw [hm1, hm2]
    dsimp only
    cases hlast : base.getLast? with
    | none => rfl
    | some c =>
      dsimp only
      have hcond : (hasLead "scene".toList (base.map Char.toLower) && c.isDigit) = false := by
        unfold sceneHeuristic at hsc
        rw [hlast] at hsc
        exact hsc
      rw [if_neg (by rw [hcond]; simp), if_neg (by rw [hed]; simp)]

/-- C7 (witness): the html first-match clause applied to a concrete
metadata content, and the js clause applied with the html file present but
yielding no title. -/
theorem get_scene_title_resolution_witness :
    extract_title_from_content "<h1>Hi</h1>".toList = some "Hi".toList
    ∧ get_scene_title (some "<h1>Hi</h1>".toList) none [] = "Hi".toList
    ∧ get_scene_title (some "no heading".toList) (some "<h1>Js</h1>".toList)
        "Base".toList = "Js".toList :=
  ⟨by decide,
   get_scene_title_resolution.1 "<h1>Hi</h1>".toList none [] "Hi".toList (by decide),
   get_scene_title_resolution.2.1 (some "no heading".toList) "<h1>Js</h1>".toList
     "Base".toList "Js".toList (by decide) (by decide)⟩

end CubeToEquirect
